import Mathlib

/-!
Verification of the theme-sync tool (src/main.rs).

The Rust program synchronizes light/dark theme choices across applications by
performing literal token substitution in per-application configuration files.
We shallowly embed the core functions:

* `infer_theme`     — from `infer_theme` (main.rs:184-190)
* `strReplace`      — Rust `str::replace` semantics (leftmost, non-overlapping,
                      all-occurrences literal replacement; empty pattern inserts
                      the replacement at every character boundary)
* `replace_in_file` — from `replace_in_file` (main.rs:193-201)
* `run_command`     — from `run_command` (main.rs:204-212)
* `Configurator.apply` — from `Configurator::apply` (main.rs:67-99)
* `apply_all`       — from `apply_all` (main.rs:176-181)

The filesystem is modelled as an association list from paths to string
contents; every operation additionally returns a trace of read/write events so
that claims about files not being touched are statable.  The outcome of
spawning an external reload command is a parameter (`world`).
-/

namespace ThemeSync

/-- Normalized theme preference tokens reported by GNOME (main.rs:51-55). -/
inductive ThemePreference where
  | Dark
  | Light
deriving DecidableEq

/-- Configuration for a single application (main.rs:17-24).  The spec calls
this record an AppRecord.  `path` is kept as a string since the spec fixes it
to a relative path joined under the home directory. -/
structure AppConfig where
  name : String
  path : String
  light_token : String
  dark_token : String
  reload_cmd : Option String
deriving DecidableEq

/-- The filesystem model: an association list from paths to text contents.
A path that is absent cannot be read (read error in `replace_in_file`). -/
abbrev FS := List (String × String)

/-- Read the contents of a file, `none` when the file does not exist. -/
def fsRead : FS → String → Option String
  | [], _ => none
  | (q, v) :: rest, p => if q = p then some v else fsRead rest p

/-- Write contents to a file, creating it if absent. -/
def fsWrite : FS → String → String → FS
  | [], p, c => [(p, c)]
  | (q, v) :: rest, p, c => if q = p then (p, c) :: rest else (q, v) :: fsWrite rest p c

/-- A low-level filesystem event: an attempted read or a performed write. -/
inductive FsEvent where
  | read (p : String)
  | write (p : String)
deriving DecidableEq

/-- Error kinds surfaced by the embedded operations (spec §7). -/
inductive Err where
  | envMissing
  | fileRead (p : String)
  | cmdExit (cmd : String) (code : Nat)
  | spawnFailed (cmd : String)
deriving DecidableEq

def exceptUnitDecEq : (a b : Except Err Unit) → Decidable (a = b)
  | Except.ok (), Except.ok () => isTrue rfl
  | Except.ok (), Except.error _ => isFalse (fun h => Except.noConfusion h)
  | Except.error _, Except.ok () => isFalse (fun h => Except.noConfusion h)
  | Except.error e₁, Except.error e₂ =>
    if h : e₁ = e₂ then isTrue (by rw [h])
    else isFalse (fun hh => h (Except.error.injEq e₁ e₂ ▸ hh))

instance : DecidableEq (Except Err Unit) := exceptUnitDecEq

/-- Boolean test that the first list is a prefix of the second. -/
def isPre : List Char → List Char → Bool
  | [], _ => true
  | _ :: _, [] => false
  | a :: xs, c :: cs => if a = c then isPre xs cs else false

/-- Boolean test that `pat` occurs as a contiguous sublist of `hay`
(Rust `str::contains` with a literal pattern). -/
def containsSub (pat : List Char) : List Char → Bool
  | [] => pat.isEmpty
  | c :: rest => isPre pat (c :: rest) || containsSub pat rest

/-- Fueled core of Rust `str::replace` for a nonempty pattern: scan left to
right, replacing each leftmost match and resuming after it.  One unit of fuel
is spent per step, and each step consumes at least one character, so fuel equal
to the length of the list suffices. -/
def replaceAux (pat rep : List Char) : Nat → List Char → List Char
  | _, [] => []
  | 0, s => s
  | fuel + 1, c :: rest =>
    if isPre pat (c :: rest) then
      rep ++ replaceAux pat rep fuel (List.drop (pat.length - 1) rest)
    else
      c :: replaceAux pat rep fuel rest

/-- Interleave `rep` after every character (the tail of Rust replace with an
empty pattern, which matches at every character boundary). -/
def interAfter (rep : List Char) : List Char → List Char
  | [] => []
  | c :: rest => c :: (rep ++ interAfter rep rest)

/-- Rust `str::replace` on character lists.  An empty pattern matches at every
character boundary, so the replacement is inserted before, between and after
all characters; a nonempty pattern is replaced leftmost-first without
overlaps. -/
def listReplace (s pat rep : List Char) : List Char :=
  if pat = [] then rep ++ interAfter rep s
  else replaceAux pat rep s.length s

/-- Rust `contents.replace(from, to)` on strings (main.rs:195). -/
def strReplace (s pat rep : String) : String :=
  String.mk (listReplace s.data pat.data rep.data)

/-- Infer a normalized theme choice from the gsettings output
(main.rs:184-190): Dark iff the text contains the literal substring
marking a dark preference, Light otherwise. -/
def infer_theme (input : String) : ThemePreference :=
  if containsSub ("prefer-dark").data input.data then ThemePreference.Dark
  else ThemePreference.Light

/-- Result of a substitution call: the filesystem afterwards, the trace of
filesystem events it performed, and its outcome. -/
structure SubOut where
  fs : FS
  trace : List FsEvent
  result : Except Err Unit
deriving DecidableEq

/-- Replace occurrences of `f` with `t` in the file at `path` if needed
(main.rs:193-201): read the whole file (error if absent), replace, and write
back only when the replaced content differs from what was read. -/
def replace_in_file (fs : FS) (path f t : String) : SubOut :=
  match fsRead fs path with
  | none => ⟨fs, [FsEvent.read path], Except.error (Err.fileRead path)⟩
  | some contents =>
    let replaced := strReplace contents f t
    if replaced = contents then ⟨fs, [FsEvent.read path], Except.ok ()⟩
    else ⟨fsWrite fs path replaced, [FsEvent.read path, FsEvent.write path], Except.ok ()⟩

/-- The process environment: the two home-directory variables consulted by the
program. -/
structure Env where
  snap_real_home : Option String
  home : Option String

/-- Resolve the home directory (main.rs:83-85): prefer SNAP_REAL_HOME, fall
back to HOME, `none` when neither is set. -/
def homeDir (env : Env) : Option String :=
  match env.snap_real_home with
  | some h => some h
  | none => env.home

/-- Join the home directory with the per-app relative path (main.rs:87). -/
def pathJoin (home p : String) : String :=
  home ++ ("/") ++ p

/-- Outcome of spawning an external command: it may run and succeed, run and
exit nonzero, or fail to spawn at all. -/
inductive CmdOutcome where
  | success
  | nonzeroExit (code : Nat)
  | spawnFailure
deriving DecidableEq

/-- Execute a shell command and surface failures as errors (main.rs:204-212).
`world` gives the outcome of actually spawning each command. -/
def run_command (world : String → CmdOutcome) (cmd : String) : Except Err Unit :=
  match world cmd with
  | CmdOutcome.success => Except.ok ()
  | CmdOutcome.nonzeroExit code => Except.error (Err.cmdExit cmd code)
  | CmdOutcome.spawnFailure => Except.error (Err.spawnFailed cmd)

/-- The (from, to) token pair selected for a theme (main.rs:68-79): Dark
substitutes light_token → dark_token, Light substitutes
dark_token → light_token. -/
def themeTokens (app : AppConfig) : ThemePreference → String × String
  | ThemePreference.Dark => (app.light_token, app.dark_token)
  | ThemePreference.Light => (app.dark_token, app.light_token)

/-- Result of a Configurator apply (or a batch of them): filesystem, event
trace, warnings logged, and outcome. -/
structure ApplyOut where
  fs : FS
  trace : List FsEvent
  warnings : List String
  result : Except Err Unit
deriving DecidableEq

/-- Apply a theme to one application (main.rs:67-99): select the token pair
for the requested theme, resolve the home directory (error when unset),
substitute in the resolved file, and, on success, run the optional reload
command, downgrading any reload failure to a warning. -/
def Configurator.apply (world : String → CmdOutcome) (env : Env) (app : AppConfig)
    (theme : ThemePreference) (fs : FS) : ApplyOut :=
  let ft := themeTokens app theme
  match homeDir env with
  | none => ⟨fs, [], [], Except.error Err.envMissing⟩
  | some home =>
    let path := pathJoin home app.path
    let sub := replace_in_file fs path ft.1 ft.2
    match sub.result with
    | Except.error e => ⟨sub.fs, sub.trace, [], Except.error e⟩
    | Except.ok () =>
      match app.reload_cmd with
      | none => ⟨sub.fs, sub.trace, [], Except.ok ()⟩
      | some cmd =>
        match run_command world cmd with
        | Except.ok () => ⟨sub.fs, sub.trace, [], Except.ok ()⟩
        | Except.error _ =>
          ⟨sub.fs, sub.trace, [("Failed to reload ") ++ app.name], Except.ok ()⟩

/-- Run every configurator for the supplied preference (main.rs:176-181),
stopping at the first failure. -/
def apply_all (world : String → CmdOutcome) (env : Env) (theme : ThemePreference) :
    List AppConfig → FS → ApplyOut
  | [], fs => ⟨fs, [], [], Except.ok ()⟩
  | app :: rest, fs =>
    let r := Configurator.apply world env app theme fs
    match r.result with
    | Except.error e => ⟨r.fs, r.trace, r.warnings, Except.error e⟩
    | Except.ok () =>
      let r₂ := apply_all world env theme rest r.fs
      ⟨r₂.fs, r.trace ++ r₂.trace, r.warnings ++ r₂.warnings, r₂.result⟩

/-! ### Basic lemmas about the embedded operations -/

theorem replaceAux_fuel (pat rep : List Char) :
    ∀ fuel s, s.length ≤ fuel → replaceAux pat rep fuel s = replaceAux pat rep s.length s := by
  intro fuel
  induction fuel using Nat.strong_induction_on with
  | _ fuel ih =>
    intro s hs
    match s with
    | [] => cases fuel <;> rfl
    | c :: rest =>
      match fuel with
      | 0 => simp at hs
      | f + 1 =>
        have hr : rest.length ≤ f := by simpa using hs
        have hd : (List.drop (pat.length - 1) rest).length ≤ rest.length := by
          simp [List.length_drop]
        simp only [replaceAux, List.length_cons]
        split
        · rw [ih f (Nat.lt_succ_self f) _ (le_trans hd hr),
              ih rest.length (Nat.lt_succ_of_le hr) _ hd]
        · rw [ih f (Nat.lt_succ_self f) rest hr]

theorem goRep_cons_pos (pat rep : List Char) (c : Char) (rest : List Char)
    (h : isPre pat (c :: rest) = true) :
    replaceAux pat rep (c :: rest).length (c :: rest)
      = rep ++ replaceAux pat rep (List.drop (pat.length - 1) rest).length
          (List.drop (pat.length - 1) rest) := by
  simp only [List.length_cons, replaceAux, h, if_true]
  rw [replaceAux_fuel pat rep rest.length _ (by simp [List.length_drop])]

theorem goRep_cons_neg (pat rep : List Char) (c : Char) (rest : List Char)
    (h : isPre pat (c :: rest) = false) :
    replaceAux pat rep (c :: rest).length (c :: rest)
      = c :: replaceAux pat rep rest.length rest := by
  simp only [List.length_cons, replaceAux, h]
  simp

theorem goRep_of_not_contains (pat rep : List Char) :
    ∀ s, containsSub pat s = false → replaceAux pat rep s.length s = s := by
  intro s
  induction s with
  | nil => intro _; rfl
  | cons c rest ih =>
    intro h
    simp only [containsSub, Bool.or_eq_false_iff] at h
    rw [goRep_cons_neg pat rep c rest h.1, ih h.2]

theorem isPre_append_drop : ∀ (pat s : List Char),
    isPre pat s = true → pat ++ List.drop pat.length s = s := by
  intro pat
  induction pat with
  | nil => intro s _; simp
  | cons a xs ih =>
    intro s h
    match s with
    | [] => simp [isPre] at h
    | c :: cs =>
      by_cases hac : a = c
      · simp only [isPre, hac, if_true] at h
        subst hac
        simpa using ih cs h
      · simp [isPre, hac] at h

theorem isPre_iff_exists : ∀ (pat s : List Char), isPre pat s = true ↔ ∃ b, s = pat ++ b := by
  intro pat
  induction pat with
  | nil => intro s; simp [isPre]
  | cons a xs ih =>
    intro s
    match s with
    | [] =>
      simp only [isPre]
      constructor
      · intro h; cases h
      · rintro ⟨b, hb⟩; cases hb
    | c :: cs =>
      by_cases hac : a = c
      · subst hac
        simp only [isPre, if_true, ih cs]
        constructor
        · rintro ⟨b, hb⟩; exact ⟨b, by simp [hb]⟩
        · rintro ⟨b, hb⟩
          exact ⟨b, by simpa using hb⟩
      · simp only [isPre, hac, if_false]
        constructor
        · intro h; cases h
        · rintro ⟨b, hb⟩
          apply absurd _ hac
          have := List.head_eq_of_cons_eq hb
          exact this.symm ▸ rfl

theorem containsSub_iff_exists (pat : List Char) :
    ∀ hay, containsSub pat hay = true ↔ ∃ a b, hay = a ++ pat ++ b := by
  intro hay
  induction hay with
  | nil =>
    simp only [containsSub, List.isEmpty_iff]
    constructor
    · intro h; exact ⟨[], [], by simp [h]⟩
    · rintro ⟨a, b, hab⟩
      have := hab.symm
      simp only [List.append_eq_nil] at this
      exact this.1.2
  | cons c rest ih =>
    simp only [containsSub, Bool.or_eq_true, isPre_iff_exists, ih]
    constructor
    · rintro (⟨b, hb⟩ | ⟨a, b, hab⟩)
      · exact ⟨[], b, by simpa using hb⟩
      · exact ⟨c :: a, b, by simp [hab]⟩
    · rintro ⟨a, b, hab⟩
      match a with
      | [] =>
        left
        exact ⟨b, by simpa using hab⟩
      | x :: a' =>
        right
        have hx := List.head_eq_of_cons_eq hab
        have ht := List.tail_eq_of_cons_eq hab
        exact ⟨a', b, by simpa using ht⟩

theorem fsRead_fsWrite_self (fs : FS) (p v : String) :
    fsRead (fsWrite fs p v) p = some v := by
  induction fs with
  | nil => simp [fsWrite, fsRead]
  | cons kv rest ih =>
    obtain ⟨q, w⟩ := kv
    by_cases h : q = p
    · simp [fsWrite, fsRead, h]
    · simp [fsWrite, fsRead, h, ih]

theorem interAfter_nil : ∀ s : List Char, interAfter [] s = s := by
  intro s
  induction s with
  | nil => rfl
  | cons c rest ih => simp [interAfter, ih]

theorem replaceAux_self (pat : List Char) (hp : pat ≠ []) :
    ∀ n s, s.length ≤ n → replaceAux pat pat s.length s = s := by
  intro n
  induction n with
  | zero =>
    intro s hs
    match s with
    | [] => rfl
  | succ n ih =>
    intro s hs
    match s with
    | [] => rfl
    | c :: rest =>
      by_cases hpre : isPre pat (c :: rest) = true
      · rw [goRep_cons_pos pat pat c rest hpre]
        have hdrop : List.drop (pat.length - 1) rest = List.drop pat.length (c :: rest) := by
          match pat, hp with
          | a :: xs, _ => simp
        have hlen : (List.drop (pat.length - 1) rest).length ≤ n := by
          have : (List.drop (pat.length - 1) rest).length ≤ rest.length := by
            simp [List.length_drop]
          have hr : rest.length ≤ n := by simpa using hs
          exact le_trans this hr
        rw [ih _ hlen, hdrop, isPre_append_drop pat (c :: rest) hpre]
      · rw [goRep_cons_neg pat pat c rest (by simpa using hpre)]
        have hr : rest.length ≤ n := by simpa using hs
        rw [ih rest hr]

theorem listReplace_self (s f : List Char) : listReplace s f f = s := by
  unfold listReplace
  by_cases hf : f = []
  · simp [hf, interAfter_nil]
  · simp only [hf, if_false]
    exact replaceAux_self f hf s.length s (le_refl _)

theorem strReplace_self (s f : String) : strReplace s f f = s := by
  unfold strReplace
  rw [listReplace_self]

theorem listReplace_of_not_contains (s pat rep : List Char)
    (h : containsSub pat s = false) : listReplace s pat rep = s := by
  unfold listReplace
  by_cases hp : pat = []
  · subst hp
    match s, h with
    | [], h => simp [containsSub] at h
    | c :: rest, h => simp [containsSub, isPre] at h
  · simp only [hp, if_false]
    exact goRep_of_not_contains pat rep s h

theorem strReplace_of_not_contains (s pat rep : String)
    (h : containsSub pat.data s.data = false) : strReplace s pat rep = s := by
  unfold strReplace
  rw [listReplace_of_not_contains s.data pat.data rep.data h]

/-! ### A specification relation for literal replacement

The spec describes the Substitution Engine as replacing every exact, literal,
non-overlapping occurrence of the pattern, scanning leftmost-first.  `ReplSpec
pat rep s r` formalises, independently of the implementation, that `r` is the
result of that process on `s`: either `s` has no occurrence of `pat` and is
returned unchanged, or the leftmost occurrence (at the minimal index `i`) is
replaced and the process continues after it. -/

def occAt (pat s : List Char) (i : Nat) : Prop := isPre pat (List.drop i s) = true

inductive ReplSpec (pat rep : List Char) : List Char → List Char → Prop where
  | noOcc (s : List Char) (h : ∀ i, ¬ occAt pat s i) : ReplSpec pat rep s s
  | firstOcc (i : Nat) (s r : List Char)
      (hocc : occAt pat s i)
      (hmin : ∀ j, j < i → ¬ occAt pat s j)
      (hrec : ReplSpec pat rep (List.drop (i + pat.length) s) r) :
      ReplSpec pat rep s (List.take i s ++ rep ++ r)

theorem isPre_nil_of_ne (pat : List Char) (hp : pat ≠ []) : isPre pat [] = false := by
  match pat, hp with
  | a :: xs, _ => rfl

theorem ReplSpec.cons_of_no_match (pat rep : List Char) (c : Char) (rest r : List Char)
    (hnp : isPre pat (c :: rest) = false)
    (h : ReplSpec pat rep rest r) :
    ReplSpec pat rep (c :: rest) (c :: r) := by
  cases h with
  | noOcc s h0 =>
    have hall : ∀ i, ¬ occAt pat (c :: rest) i := by
      intro i
      match i with
      | 0 => simp [occAt, hnp]
      | i + 1 => simpa [occAt] using h0 i
    exact ReplSpec.noOcc (c :: rest) hall
  | firstOcc i s r' hocc hmin hrec =>
    have h1 : occAt pat (c :: rest) (i + 1) := by simpa [occAt] using hocc
    have h2 : ∀ j, j < i + 1 → ¬ occAt pat (c :: rest) j := by
      intro j hj
      match j with
      | 0 => simp [occAt, hnp]
      | j + 1 =>
        have := hmin j (Nat.lt_of_succ_lt_succ hj)
        simpa [occAt] using this
    have h3 : ReplSpec pat rep (List.drop (i + 1 + pat.length) (c :: rest)) r' := by
      have harith : i + 1 + pat.length = (i + pat.length) + 1 := by omega
      rw [harith, List.drop_succ_cons]
      exact hrec
    have h4 := ReplSpec.firstOcc (i + 1) (c :: rest) r' h1 h2 h3
    simpa using h4

theorem goRep_replSpec (pat rep : List Char) (hp : pat ≠ []) :
    ∀ n s, s.length ≤ n → ReplSpec pat rep s (replaceAux pat rep s.length s) := by
  intro n
  induction n with
  | zero =>
    intro s hs
    match s with
    | [] =>
      exact ReplSpec.noOcc [] (fun i => by simp [occAt, isPre_nil_of_ne pat hp])
  | succ n ih =>
    intro s hs
    match s with
    | [] =>
      exact ReplSpec.noOcc [] (fun i => by simp [occAt, isPre_nil_of_ne pat hp])
    | c :: rest =>
      have hr : rest.length ≤ n := by simpa using hs
      by_cases hpre : isPre pat (c :: rest) = true
      · rw [goRep_cons_pos pat rep c rest hpre]
        have hX : List.drop (pat.length - 1) rest = List.drop (0 + pat.length) (c :: rest) := by
          match pat, hp with
          | a :: xs, _ => simp
        have hlen : (List.drop (pat.length - 1) rest).length ≤ n := by
          have h1 : (List.drop (pat.length - 1) rest).length ≤ rest.length := by
            simp [List.length_drop]
          exact le_trans h1 hr
        have hrec : ReplSpec pat rep (List.drop (0 + pat.length) (c :: rest))
            (replaceAux pat rep (List.drop (pat.length - 1) rest).length
              (List.drop (pat.length - 1) rest)) := by
          rw [← hX]
          exact ih _ hlen
        have h4 := ReplSpec.firstOcc 0 (c :: rest) _ (by simpa [occAt] using hpre)
          (fun j hj => absurd hj (Nat.not_lt_zero j)) hrec
        simpa using h4
      · have hpre' : isPre pat (c :: rest) = false := by simpa using hpre
        rw [goRep_cons_neg pat rep c rest hpre']
        exact ReplSpec.cons_of_no_match pat rep c rest _ hpre' (ih rest hr)

theorem replSpec_unique (pat rep : List Char) :
    ∀ s r₁, ReplSpec pat rep s r₁ → ∀ r₂, ReplSpec pat rep s r₂ → r₁ = r₂ := by
  intro s r₁ h1
  induction h1 with
  | noOcc s h =>
    intro r₂ h2
    cases h2 with
    | noOcc => rfl
    | firstOcc i s r' hocc hmin hrec => exact absurd hocc (h i)
  | firstOcc i s r' hocc hmin hrec ih =>
    intro r₂ h2
    cases h2 with
    | noOcc _ h => exact absurd hocc (h i)
    | firstOcc i' _ r'' hocc' hmin' hrec' =>
      have hii : i = i' := by
        by_contra hne
        rcases Nat.lt_or_ge i i' with hlt | hge
        · exact hmin' i hlt hocc
        · have hlt' : i' < i := lt_of_le_of_ne hge (fun he => hne he.symm)
          exact hmin i' hlt' hocc'
      subst hii
      rw [ih r'' hrec']

/-! ### Lemmas about the Configurator and the fan-out driver -/

theorem apply_proj (world : String → CmdOutcome) (env : Env) (app : AppConfig)
    (theme : ThemePreference) (fs : FS) (home : String)
    (hh : homeDir env = some home) :
    (Configurator.apply world env app theme fs).fs
        = (replace_in_file fs (pathJoin home app.path)
            (themeTokens app theme).1 (themeTokens app theme).2).fs
    ∧ (Configurator.apply world env app theme fs).trace
        = (replace_in_file fs (pathJoin home app.path)
            (themeTokens app theme).1 (themeTokens app theme).2).trace
    ∧ (Configurator.apply world env app theme fs).result
        = (replace_in_file fs (pathJoin home app.path)
            (themeTokens app theme).1 (themeTokens app theme).2).result := by
  simp only [Configurator.apply, hh]
  cases hres : (replace_in_file fs (pathJoin home app.path)
      (themeTokens app theme).1 (themeTokens app theme).2).result with
  | error e => simp [hres]
  | ok u =>
    cases u
    cases hrc : app.reload_cmd with
    | none => simp [hres, hrc]
    | some cmd =>
      cases hw : run_command world cmd with
      | ok v => cases v; simp [hres, hrc, hw]
      | error e => simp [hres, hrc, hw]

theorem apply_all_append_err (world : String → CmdOutcome) (env : Env)
    (theme : ThemePreference) :
    ∀ (l₁ l₂ : List AppConfig) (fs : FS) (e : Err),
    (apply_all world env theme l₁ fs).result = Except.error e →
    apply_all world env theme (l₁ ++ l₂) fs = apply_all world env theme l₁ fs := by
  intro l₁
  induction l₁ with
  | nil =>
    intro l₂ fs e h
    simp [apply_all] at h
  | cons app rest ih =>
    intro l₂ fs e h
    simp only [apply_all] at h
    simp only [List.cons_append, apply_all]
    cases hc : (Configurator.apply world env app theme fs).result with
    | error e' => simp [hc]
    | ok u =>
      cases u
      simp only [hc] at h
      simp only [hc, List.append_eq]
      rw [ih l₂ (Configurator.apply world env app theme fs).fs e h]

theorem apply_all_append_ok (world : String → CmdOutcome) (env : Env)
    (theme : ThemePreference) :
    ∀ (l₁ l₂ : List AppConfig) (fs : FS),
    (apply_all world env theme l₁ fs).result = Except.ok () →
    apply_all world env theme (l₁ ++ l₂) fs
      = ⟨(apply_all world env theme l₂ (apply_all world env theme l₁ fs).fs).fs,
         (apply_all world env theme l₁ fs).trace
           ++ (apply_all world env theme l₂ (apply_all world env theme l₁ fs).fs).trace,
         (apply_all world env theme l₁ fs).warnings
           ++ (apply_all world env theme l₂ (apply_all world env theme l₁ fs).fs).warnings,
         (apply_all world env theme l₂ (apply_all world env theme l₁ fs).fs).result⟩ := by
  intro l₁
  induction l₁ with
  | nil =>
    intro l₂ fs _
    simp [apply_all]
  | cons app rest ih =>
    intro l₂ fs h
    simp only [apply_all] at h
    simp only [List.cons_append, apply_all]
    cases hc : (Configurator.apply world env app theme fs).result with
    | error e' =>
      simp only [hc] at h
      exact absurd h (fun hh => Except.noConfusion hh)
    | ok u =>
      cases u
      simp only [hc] at h
      simp only [hc, List.append_eq]
      rw [ih l₂ (Configurator.apply world env app theme fs).fs h]
      simp [List.append_assoc]

/-! ### Claim theorems -/

/-- Claim C1: for every AppRecord and theme, `Configurator.apply` selects the
substitution pair directionally — Dark substitutes light_token → dark_token,
Light substitutes dark_token → light_token — and the resulting file content is
a pure string function of the current content, independent of the file's
state (for any current content `c` the file afterwards holds exactly
`strReplace c from to`). -/
theorem apply_directional (world : String → CmdOutcome) (env : Env) (app : AppConfig)
    (fs : FS) (home c : String)
    (hh : homeDir env = some home)
    (hr : fsRead fs (pathJoin home app.path) = some c) :
    fsRead (Configurator.apply world env app ThemePreference.Dark fs).fs
        (pathJoin home app.path)
      = some (strReplace c app.light_token app.dark_token)
    ∧ fsRead (Configurator.apply world env app ThemePreference.Light fs).fs
        (pathJoin home app.path)
      = some (strReplace c app.dark_token app.light_token) := by
  constructor
  · rw [(apply_proj world env app ThemePreference.Dark fs home hh).1]
    simp only [themeTokens, replace_in_file, hr]
    by_cases hch : strReplace c app.light_token app.dark_token = c
    · simp only [hch, if_pos rfl]
      simpa using hr
    · simp only [if_neg hch]
      exact fsRead_fsWrite_self fs (pathJoin home app.path) _
  · rw [(apply_proj world env app ThemePreference.Light fs home hh).1]
    simp only [themeTokens, replace_in_file, hr]
    by_cases hch : strReplace c app.dark_token app.light_token = c
    · simp only [hch, if_pos rfl]
      simpa using hr
    · simp only [if_neg hch]
      exact fsRead_fsWrite_self fs (pathJoin home app.path) _

theorem apply_directional_witness :
    fsRead (Configurator.apply (fun _ => CmdOutcome.success) ⟨none, some ("h")⟩
        ⟨("app"), ("cfg"), ("light"), ("dark"), none⟩ ThemePreference.Dark
        [(("h/cfg"), ("x light y"))]).fs
        (pathJoin ("h") ("cfg"))
      = some (strReplace ("x light y") ("light") ("dark"))
    ∧ fsRead (Configurator.apply (fun _ => CmdOutcome.success) ⟨none, some ("h")⟩
        ⟨("app"), ("cfg"), ("light"), ("dark"), none⟩ ThemePreference.Light
        [(("h/cfg"), ("x light y"))]).fs
        (pathJoin ("h") ("cfg"))
      = some (strReplace ("x light y") ("dark") ("light")) :=
  apply_directional (fun _ => CmdOutcome.success) ⟨none, some ("h")⟩
    ⟨("app"), ("cfg"), ("light"), ("dark"), none⟩
    [(("h/cfg"), ("x light y"))] ("h") ("x light y") (by rfl) (by decide)

/-- Claim C2: `infer_theme` is total and returns Dark exactly when the input
contains the literal substring marking a dark preference; every other input,
including the empty string, yields Light. -/
theorem infer_theme_dark_iff_marker (s : String) :
    (infer_theme s = ThemePreference.Dark
        ↔ ∃ a b, s.data = a ++ ("prefer-dark").data ++ b)
    ∧ (infer_theme s = ThemePreference.Dark ∨ infer_theme s = ThemePreference.Light) := by
  constructor
  · constructor
    · intro hd
      apply (containsSub_iff_exists (("prefer-dark").data) s.data).mp
      cases hb : containsSub ("prefer-dark").data s.data
      · unfold infer_theme at hd
        rw [hb] at hd
        simp at hd
      · rfl
    · intro hex
      have hc : containsSub ("prefer-dark").data s.data = true :=
        (containsSub_iff_exists _ _).mpr hex
      unfold infer_theme
      rw [hc]
      simp
  · unfold infer_theme
    cases hb : containsSub ("prefer-dark").data s.data
    · right
      simp
    · left
      simp

/-- Claim C10: preference normalization is case-sensitive and exact — any
input that does not contain the exact lowercase marker substring (in
particular inputs containing it only in a different letter case) normalizes
to Light. -/
theorem infer_theme_case_sensitive (s : String)
    (h : ¬ ∃ a b, s.data = a ++ ("prefer-dark").data ++ b) :
    infer_theme s = ThemePreference.Light := by
  have hfalse : containsSub ("prefer-dark").data s.data = false := by
    cases hb : containsSub ("prefer-dark").data s.data
    · rfl
    · exact absurd ((containsSub_iff_exists _ _).mp hb) h
  unfold infer_theme
  rw [hfalse]
  simp

theorem infer_theme_case_sensitive_witness :
    infer_theme ("Prefer-Dark") = ThemePreference.Light :=
  infer_theme_case_sensitive ("Prefer-Dark")
    (fun hex => by
      have hb : containsSub ("prefer-dark").data ("Prefer-Dark").data = true :=
        (containsSub_iff_exists _ _).mpr hex
      have hf : containsSub ("prefer-dark").data ("Prefer-Dark").data = false := by decide
      rw [hb] at hf
      exact Bool.noConfusion hf)

/-- Claim C6: a successful substitution writes the file only when the replaced
content differs from the content read; when the replacement leaves the
content identical the filesystem is untouched and only a read occurs. -/
theorem replace_in_file_write_only_on_change (fs : FS) (path f t c : String)
    (hr : fsRead fs path = some c) :
    (strReplace c f t = c →
        replace_in_file fs path f t = ⟨fs, [FsEvent.read path], Except.ok ()⟩)
    ∧ (strReplace c f t ≠ c →
        replace_in_file fs path f t
          = ⟨fsWrite fs path (strReplace c f t),
             [FsEvent.read path, FsEvent.write path], Except.ok ()⟩) := by
  constructor
  · intro hch
    simp [replace_in_file, hr, hch]
  · intro hch
    simp [replace_in_file, hr, hch]

theorem replace_in_file_write_only_on_change_witness :
    (strReplace ("a light b") ("light") ("light") = ("a light b") →
        replace_in_file [(("p"), ("a light b"))] ("p") ("light") ("light")
          = ⟨[(("p"), ("a light b"))], [FsEvent.read ("p")], Except.ok ()⟩)
    ∧ (strReplace ("a light b") ("light") ("light") ≠ ("a light b") →
        replace_in_file [(("p"), ("a light b"))] ("p") ("light") ("light")
          = ⟨fsWrite [(("p"), ("a light b"))] ("p")
                (strReplace ("a light b") ("light") ("light")),
             [FsEvent.read ("p"), FsEvent.write ("p")], Except.ok ()⟩) :=
  replace_in_file_write_only_on_change [(("p"), ("a light b"))] ("p")
    ("light") ("light") ("a light b") (by decide)

/-- Claim C8: when neither SNAP_REAL_HOME nor HOME is set, `Configurator.apply`
fails with the environment-missing error and performs no filesystem event at
all — the target file is neither read nor written and the filesystem is
returned unchanged. -/
theorem apply_env_missing_untouched (world : String → CmdOutcome) (env : Env)
    (app : AppConfig) (theme : ThemePreference) (fs : FS)
    (h1 : env.snap_real_home = none) (h2 : env.home = none) :
    Configurator.apply world env app theme fs
      = ⟨fs, [], [], Except.error Err.envMissing⟩ := by
  have hh : homeDir env = none := by simp [homeDir, h1, h2]
  simp [Configurator.apply, hh]

theorem apply_env_missing_untouched_witness :
    Configurator.apply (fun _ => CmdOutcome.success) ⟨none, none⟩
        ⟨("app"), ("cfg"), ("light"), ("dark"), none⟩ ThemePreference.Dark
        [(("h/cfg"), ("x light y"))]
      = ⟨[(("h/cfg"), ("x light y"))], [], [], Except.error Err.envMissing⟩ :=
  apply_env_missing_untouched (fun _ => CmdOutcome.success) ⟨none, none⟩
    ⟨("app"), ("cfg"), ("light"), ("dark"), none⟩ ThemePreference.Dark
    [(("h/cfg"), ("x light y"))] rfl rfl

/-- Claim C4: when the substitution step succeeds, a failure of the configured
reload command (non-zero exit or spawn failure) never causes
`Configurator.apply` to return an error — the apply still succeeds. -/
theorem apply_ok_despite_reload_failure (world : String → CmdOutcome) (env : Env)
    (app : AppConfig) (theme : ThemePreference) (fs : FS) (home cmd : String)
    (hh : homeDir env = some home)
    (hsub : (replace_in_file fs (pathJoin home app.path)
        (themeTokens app theme).1 (themeTokens app theme).2).result = Except.ok ())
    (hcmd : app.reload_cmd = some cmd)
    (hfail : world cmd ≠ CmdOutcome.success) :
    (Configurator.apply world env app theme fs).result = Except.ok () := by
  rw [(apply_proj world env app theme fs home hh).2.2]
  exact hsub

theorem apply_ok_despite_reload_failure_witness :
    (Configurator.apply (fun _ => CmdOutcome.nonzeroExit 1) ⟨some ("h"), none⟩
        ⟨("app"), ("cfg"), ("light"), ("dark"), some ("reload-cmd")⟩
        ThemePreference.Dark [(("h/cfg"), ("x light y"))]).result = Except.ok () :=
  apply_ok_despite_reload_failure (fun _ => CmdOutcome.nonzeroExit 1) ⟨some ("h"), none⟩
    ⟨("app"), ("cfg"), ("light"), ("dark"), some ("reload-cmd")⟩
    ThemePreference.Dark [(("h/cfg"), ("x light y"))] ("h") ("reload-cmd")
    rfl (by decide) rfl (by decide)

/-- Claim C9: when light_token equals dark_token, applying either theme leaves
the file content unchanged, performs no write (only the read occurs), and
`Configurator.apply` reports success rather than an error. -/
theorem apply_equal_tokens_noop (world : String → CmdOutcome) (env : Env)
    (app : AppConfig) (theme : ThemePreference) (fs : FS) (home c : String)
    (heq : app.light_token = app.dark_token)
    (hh : homeDir env = some home)
    (hr : fsRead fs (pathJoin home app.path) = some c) :
    (Configurator.apply world env app theme fs).fs = fs
    ∧ (Configurator.apply world env app theme fs).trace
        = [FsEvent.read (pathJoin home app.path)]
    ∧ (Configurator.apply world env app theme fs).result = Except.ok () := by
  obtain ⟨hfs, htr, hres⟩ := apply_proj world env app theme fs home hh
  have htok : (themeTokens app theme).1 = (themeTokens app theme).2 := by
    cases theme <;> simp [themeTokens, heq]
  have hsub : replace_in_file fs (pathJoin home app.path)
      (themeTokens app theme).1 (themeTokens app theme).2
      = ⟨fs, [FsEvent.read (pathJoin home app.path)], Except.ok ()⟩ := by
    rw [htok]
    simp [replace_in_file, hr, strReplace_self]
  exact ⟨by rw [hfs, hsub], by rw [htr, hsub], by rw [hres, hsub]⟩

theorem apply_equal_tokens_noop_witness :
    (Configurator.apply (fun _ => CmdOutcome.success) ⟨some ("h"), none⟩
        ⟨("app"), ("cfg"), ("tok"), ("tok"), none⟩
        ThemePreference.Light [(("h/cfg"), ("a tok b"))]).fs
      = [(("h/cfg"), ("a tok b"))]
    ∧ (Configurator.apply (fun _ => CmdOutcome.success) ⟨some ("h"), none⟩
        ⟨("app"), ("cfg"), ("tok"), ("tok"), none⟩
        ThemePreference.Light [(("h/cfg"), ("a tok b"))]).trace
      = [FsEvent.read (pathJoin ("h") ("cfg"))]
    ∧ (Configurator.apply (fun _ => CmdOutcome.success) ⟨some ("h"), none⟩
        ⟨("app"), ("cfg"), ("tok"), ("tok"), none⟩
        ThemePreference.Light [(("h/cfg"), ("a tok b"))]).result = Except.ok () :=
  apply_equal_tokens_noop (fun _ => CmdOutcome.success) ⟨some ("h"), none⟩
    ⟨("app"), ("cfg"), ("tok"), ("tok"), none⟩
    ThemePreference.Light [(("h/cfg"), ("a tok b"))] ("h") ("a tok b")
    rfl rfl (by decide)

/-- Claim C5 fails as stated: substitution is not idempotent for arbitrary
from/to strings.  With content "aab", from "ab" and to "ba" the first call
rewrites the file to "aba"; the second call replaces again, writes, and
produces the different content "baa". -/
theorem substitute_twice_differs_counterexample :
    (replace_in_file (replace_in_file [(("p"), ("aab"))] ("p") ("ab") ("ba")).fs
        ("p") ("ab") ("ba")).fs
      ≠ (replace_in_file [(("p"), ("aab"))] ("p") ("ab") ("ba")).fs
    ∧ (replace_in_file (replace_in_file [(("p"), ("aab"))] ("p") ("ab") ("ba")).fs
        ("p") ("ab") ("ba")).trace
      = [FsEvent.read ("p"), FsEvent.write ("p")] := by
  decide

/-- Claim C5, amended: calling substitute twice in succession produces the
same final file content as calling it once and the second call performs no
write, provided the content produced by the first call contains no further
occurrence of `from` (the token substitutions the program is configured with
satisfy this; arbitrary from/to strings need not). -/
theorem substitute_idempotent_of_no_reoccurrence (fs : FS) (path f t c : String)
    (hr : fsRead fs path = some c)
    (hno : containsSub f.data (strReplace c f t).data = false) :
    (replace_in_file (replace_in_file fs path f t).fs path f t).fs
        = (replace_in_file fs path f t).fs
    ∧ (replace_in_file (replace_in_file fs path f t).fs path f t).trace
        = [FsEvent.read path]
    ∧ (replace_in_file (replace_in_file fs path f t).fs path f t).result
        = Except.ok () := by
  by_cases hch : strReplace c f t = c
  · have h1 : replace_in_file fs path f t = ⟨fs, [FsEvent.read path], Except.ok ()⟩ := by
      simp [replace_in_file, hr, hch]
    rw [h1]
    simp [replace_in_file, hr, hch]
  · have h1 : replace_in_file fs path f t
        = ⟨fsWrite fs path (strReplace c f t),
           [FsEvent.read path, FsEvent.write path], Except.ok ()⟩ := by
      simp [replace_in_file, hr, hch]
    rw [h1]
    have hre : fsRead (fsWrite fs path (strReplace c f t)) path
        = some (strReplace c f t) := fsRead_fsWrite_self fs path _
    have hid : strReplace (strReplace c f t) f t = strReplace c f t :=
      strReplace_of_not_contains _ f t hno
    simp [replace_in_file, hre, hid]

theorem substitute_idempotent_of_no_reoccurrence_witness :
    (replace_in_file (replace_in_file [(("p"), ("a light b"))] ("p") ("light") ("dark")).fs
        ("p") ("light") ("dark")).fs
      = (replace_in_file [(("p"), ("a light b"))] ("p") ("light") ("dark")).fs
    ∧ (replace_in_file (replace_in_file [(("p"), ("a light b"))] ("p") ("light") ("dark")).fs
        ("p") ("light") ("dark")).trace
      = [FsEvent.read ("p")]
    ∧ (replace_in_file (replace_in_file [(("p"), ("a light b"))] ("p") ("light") ("dark")).fs
        ("p") ("light") ("dark")).result
      = Except.ok () :=
  substitute_idempotent_of_no_reoccurrence [(("p"), ("a light b"))] ("p")
    ("light") ("dark") ("a light b") (by decide) (by decide)

/-- Claim C3: the fan-out driver is fail-fast — when every record before
`app` succeeds and the apply for `app` fails, the outcome of the whole batch
is identical for every list of subsequent records `post`: the records after
`app` are not attempted, no later file is touched, and the error from `app`
is propagated as the batch result. -/
theorem apply_all_fail_fast (world : String → CmdOutcome) (env : Env)
    (theme : ThemePreference) (pre post : List AppConfig) (app : AppConfig)
    (fs : FS) (e : Err)
    (h1 : (apply_all world env theme pre fs).result = Except.ok ())
    (h2 : (Configurator.apply world env app theme
        (apply_all world env theme pre fs).fs).result = Except.error e) :
    apply_all world env theme (pre ++ app :: post) fs
      = apply_all world env theme (pre ++ [app]) fs
    ∧ (apply_all world env theme (pre ++ app :: post) fs).result = Except.error e := by
  have hsingle : (apply_all world env theme [app]
      (apply_all world env theme pre fs).fs).result = Except.error e := by
    simp [apply_all, h2]
  have hcomb := apply_all_append_ok world env theme pre [app] fs h1
  have herr : (apply_all world env theme (pre ++ [app]) fs).result = Except.error e := by
    rw [hcomb]
    exact hsingle
  have hext : apply_all world env theme ((pre ++ [app]) ++ post) fs
      = apply_all world env theme (pre ++ [app]) fs :=
    apply_all_append_err world env theme (pre ++ [app]) post fs e herr
  have hassoc : (pre ++ [app]) ++ post = pre ++ app :: post := by simp
  rw [hassoc] at hext
  exact ⟨hext, by rw [hext]; exact herr⟩

theorem apply_all_fail_fast_witness :
    apply_all (fun _ => CmdOutcome.success) ⟨some ("h"), none⟩ ThemePreference.Dark
        ([⟨("a1"), ("c1"), ("light"), ("dark"), none⟩]
          ++ ⟨("a2"), ("missing"), ("light"), ("dark"), none⟩
            :: [⟨("a3"), ("c3"), ("light"), ("dark"), none⟩])
        [(("h/c1"), ("x light")), (("h/c3"), ("y light"))]
      = apply_all (fun _ => CmdOutcome.success) ⟨some ("h"), none⟩ ThemePreference.Dark
          ([⟨("a1"), ("c1"), ("light"), ("dark"), none⟩]
            ++ [⟨("a2"), ("missing"), ("light"), ("dark"), none⟩])
          [(("h/c1"), ("x light")), (("h/c3"), ("y light"))]
    ∧ (apply_all (fun _ => CmdOutcome.success) ⟨some ("h"), none⟩ ThemePreference.Dark
        ([⟨("a1"), ("c1"), ("light"), ("dark"), none⟩]
          ++ ⟨("a2"), ("missing"), ("light"), ("dark"), none⟩
            :: [⟨("a3"), ("c3"), ("light"), ("dark"), none⟩])
        [(("h/c1"), ("x light")), (("h/c3"), ("y light"))]).result
      = Except.error (Err.fileRead (pathJoin ("h") ("missing"))) :=
  apply_all_fail_fast (fun _ => CmdOutcome.success) ⟨some ("h"), none⟩
    ThemePreference.Dark [⟨("a1"), ("c1"), ("light"), ("dark"), none⟩]
    [⟨("a3"), ("c3"), ("light"), ("dark"), none⟩]
    ⟨("a2"), ("missing"), ("light"), ("dark"), none⟩
    [(("h/c1"), ("x light")), (("h/c3"), ("y light"))]
    (Err.fileRead (pathJoin ("h") ("missing"))) (by decide) (by decide)

/-- Claim C7: for a nonempty pattern, the content produced by the Substitution
Engine is exactly the original content with every exact, literal,
non-overlapping occurrence of `from` replaced by `to`, scanning
leftmost-first — `ReplSpec` states that process independently of the
implementation, and the result is moreover the unique string satisfying it. -/
theorem strReplace_meets_replacement_spec (c f t : String) (hf : f ≠ ("")) :
    ReplSpec f.data t.data c.data (strReplace c f t).data
    ∧ ∀ r : List Char, ReplSpec f.data t.data c.data r → r = (strReplace c f t).data := by
  have hfd : f.data ≠ [] := by
    intro hd
    apply hf
    cases f with
    | mk d =>
      simp only at hd
      rw [hd]
  have h1 : ReplSpec f.data t.data c.data (replaceAux f.data t.data c.data.length c.data) :=
    goRep_replSpec f.data t.data hfd c.data.length c.data (le_refl _)
  have hs : (strReplace c f t).data = replaceAux f.data t.data c.data.length c.data := by
    unfold strReplace listReplace
    simp [hfd]
  constructor
  · rw [hs]
    exact h1
  · intro r hr
    rw [hs]
    exact replSpec_unique f.data t.data c.data r hr _ h1

theorem strReplace_meets_replacement_spec_witness :
    ReplSpec (String.data ("ab")) (String.data ("x")) (String.data ("cabd"))
        (strReplace ("cabd") ("ab") ("x")).data
    ∧ ∀ r : List Char,
        ReplSpec (String.data ("ab")) (String.data ("x")) (String.data ("cabd")) r →
        r = (strReplace ("cabd") ("ab") ("x")).data :=
  strReplace_meets_replacement_spec ("cabd") ("ab") ("x") (by decide)

end ThemeSync
